import Mathlib

/-!
Verification of the generational in-memory cache of kdex-host
(`internal/cache/memory.go`) against its natural-language specification.

Modelling conventions:
* Go `time.Time` and `time.Duration` are modelled as `Nat` (an abstract
  clock tick count); `time.Now().After(t)` becomes `t < now` (Go's
  `After` is strict).
* Go maps (`map[string]V`) are modelled as association lists
  `List (String × V)` with unique-key update (`aset`), first-match lookup
  (`alookup`) and key removal (`aerase`).  Go's map iteration in the source
  is only used in loops whose effect is order-independent (pruning by a
  predicate, deleting one key everywhere) or, in `Get`'s stale scan, in
  states with at most one non-current segment, so the list order is a
  harmless determinisation.
* Each operation that reads the clock takes `now : Nat` explicitly.
* Go `error` results are modelled as `Option String` (`none` = `nil`).
* The Go field `class` is renamed `className` (`class` is a Lean keyword).
-/

/-- First-match lookup in an association list (Go map read `m[k]`). -/
def alookup {α : Type} (key : String) : List (String × α) → Option α
  | [] => none
  | (k, v) :: rest => if k = key then some v else alookup key rest

/-- Update-or-append in an association list (Go map write `m[k] = v`). -/
def aset {α : Type} (key : String) (v : α) : List (String × α) → List (String × α)
  | [] => [(key, v)]
  | (k, w) :: rest => if k = key then (key, v) :: rest else (k, w) :: aset key v rest

/-- Key removal from an association list (Go `delete(m, k)`). -/
def aerase {α : Type} (key : String) (l : List (String × α)) : List (String × α) :=
  l.filter (fun p => p.1 ≠ key)

/-- `memoryCacheEntry` from memory.go: a value plus an absolute expiry time. -/
structure memoryCacheEntry where
  expiry : Nat
  value : String
  deriving Repr, DecidableEq

/-- One generation's key→entry table (`map[string]memoryCacheEntry`). -/
abbrev Segment := List (String × memoryCacheEntry)

/-- `InMemoryCache` from memory.go (the reaper channel is not part of the
state modelled here; the mutex is the atomicity of each operation). -/
structure InMemoryCache where
  className : String
  currentChecksum : String
  host : String
  segments : List (String × Segment)
  ttl : Nat
  uncycled : Bool
  deriving Repr, DecidableEq

namespace InMemoryCache

/-- `Checksum()`: returns `currentChecksum`. -/
def Checksum (c : InMemoryCache) : String := c.currentChecksum

/-- `Delete(ctx, key)`: removes `key` from every segment; returns `nil`. -/
def Delete (c : InMemoryCache) (key : String) : InMemoryCache × Option String :=
  ({ c with segments := c.segments.map (fun p => (p.1, aerase key p.2)) }, none)

/-- The scan over all non-current segments in `Get` (step 2 of memory.go's
`Get`): first segment of another generation holding `key` decides the
result, with the lazy-deletion expiry check. -/
def scanOther (current key : String) (now : Nat) :
    List (String × Segment) → String × Bool × Bool × Option String
  | [] => ("", false, true, none)
  | (gen, seg) :: rest =>
    if gen = current then scanOther current key now rest
    else
      match alookup key seg with
      | some entry =>
        if entry.expiry < now then ("", false, true, none)
        else (entry.value, true, false, none)
      | none => scanOther current key now rest

/-- `Get(ctx, key)` from memory.go: current-generation lookup with lazy
expiry check, then the stale-generation scan, else not-found. -/
def Get (c : InMemoryCache) (now : Nat) (key : String) :
    String × Bool × Bool × Option String :=
  match alookup c.currentChecksum c.segments with
  | some seg =>
    match alookup key seg with
    | some entry =>
      if entry.expiry < now then ("", false, true, none)
      else (entry.value, true, true, none)
    | none => scanOther c.currentChecksum key now c.segments
  | none => scanOther c.currentChecksum key now c.segments

/-- `Set(ctx, key, value)` from memory.go: write into the current
generation's segment (created if absent) with `expiry = now + ttl`. -/
def Set (c : InMemoryCache) (now : Nat) (key value : String) :
    InMemoryCache × Option String :=
  let seg := (alookup c.currentChecksum c.segments).getD []
  ({ c with
      segments :=
        aset c.currentChecksum (aset key ⟨now + c.ttl, value⟩ seg) c.segments },
   none)

/-- `reap()` from memory.go: remove every expired entry from every segment. -/
def reap (c : InMemoryCache) (now : Nat) : InMemoryCache :=
  { c with
      segments :=
        c.segments.map (fun p => (p.1, p.2.filter (fun q => ¬ q.2.expiry < now))) }

end InMemoryCache

/-- Which generations the pruning loops of `Cycle` keep: if `force`, only
the generation being installed (memory.go 170–175); otherwise that
generation and the previous one (memory.go 176–183). -/
def keepGen (checksum oldChecksum : String) (force : Bool) (g : String) : Bool :=
  if force then g = checksum else (g = checksum ∨ g = oldChecksum)

/-- The per-cache body of `InMemoryCacheManager.Cycle` (memory.go lines
161–184), applied to caches that are not skipped: install the new
checksum, ensure its segment exists, then prune per `keepGen`. -/
def cycleCache (checksum oldChecksum : String) (force : Bool)
    (c : InMemoryCache) : InMemoryCache :=
  let segs1 :=
    match alookup checksum c.segments with
    | none => aset checksum ([] : Segment) c.segments
    | some _ => c.segments
  let segs2 := segs1.filter (fun p => keepGen checksum oldChecksum force p.1)
  { c with currentChecksum := checksum, segments := segs2 }

/-- `InMemoryCacheManager` from memory.go. -/
structure InMemoryCacheManager where
  caches : List (String × InMemoryCache)
  currentChecksum : String
  host : String
  ttl : Nat
  deriving Repr, DecidableEq

namespace InMemoryCacheManager

/-- `Cycle(checksum, force)` from memory.go: record the old checksum,
install the new one on the manager, and cycle every managed cache that is
not (`uncycled` and not `force`); returns `nil`. -/
def Cycle (m : InMemoryCacheManager) (checksum : String) (force : Bool) :
    InMemoryCacheManager × Option String :=
  let oldChecksum := m.currentChecksum
  ({ m with
      currentChecksum := checksum,
      caches :=
        m.caches.map (fun p =>
          if p.2.uncycled && !force then p
          else (p.1, cycleCache checksum oldChecksum force p.2)) },
   none)

end InMemoryCacheManager

/-! ### Basic lemmas about the association-list primitives -/

theorem alookup_aset_self {α : Type} (k : String) (v : α) (l : List (String × α)) :
    alookup k (aset k v l) = some v := by
  induction l with
  | nil => simp [alookup, aset]
  | cons p rest ih =>
    by_cases h : p.1 = k
    · simp [aset, h, alookup]
    · simp [aset, h, alookup, ih]

theorem alookup_aset_ne {α : Type} (k k' : String) (v : α) (l : List (String × α))
    (h : k' ≠ k) : alookup k' (aset k v l) = alookup k' l := by
  have h' : k ≠ k' := Ne.symm h
  induction l with
  | nil => simp [alookup, aset, h']
  | cons p rest ih =>
    by_cases hp : p.1 = k
    · have hpk' : p.1 ≠ k' := by rw [hp]; exact h'
      simp [aset, hp, alookup, h', hpk']
    · by_cases hp' : p.1 = k'
      · simp [aset, hp, alookup, hp', h]
      · simp [aset, hp, alookup, hp', ih]

theorem alookup_mem {α : Type} {k : String} {v : α} {l : List (String × α)}
    (h : alookup k l = some v) : (k, v) ∈ l := by
  induction l with
  | nil => simp [alookup] at h
  | cons p rest ih =>
    obtain ⟨a, b⟩ := p
    by_cases hp : a = k
    · simp [alookup, hp] at h
      subst hp
      subst h
      exact List.mem_cons_self _ _
    · simp [alookup, hp] at h
      exact List.mem_cons_of_mem _ (ih h)

theorem alookup_map_value {α β : Type} (k : String) (f : α → β)
    (l : List (String × α)) :
    alookup k (l.map (fun p => (p.1, f p.2))) = (alookup k l).map f := by
  induction l with
  | nil => simp [alookup]
  | cons p rest ih =>
    by_cases hp : p.1 = k
    · simp [alookup, hp]
    · simp [alookup, hp, ih]

theorem alookup_aerase_self {α : Type} (k : String) (l : List (String × α)) :
    alookup k (aerase k l) = none := by
  induction l with
  | nil => simp [alookup, aerase]
  | cons p rest ih =>
    by_cases hp : p.1 = k
    · simpa [aerase, hp] using ih
    · simpa [aerase, hp, alookup] using ih

theorem alookup_aerase_ne {α : Type} (k k' : String) (l : List (String × α))
    (h : k' ≠ k) : alookup k' (aerase k l) = alookup k' l := by
  have h' : k ≠ k' := Ne.symm h
  induction l with
  | nil => simp [alookup, aerase]
  | cons p rest ih =>
    by_cases hp : p.1 = k
    · have hpk' : p.1 ≠ k' := by rw [hp]; exact h'
      simpa [aerase, hp, alookup, hpk', h'] using ih
    · by_cases hp' : p.1 = k'
      · simp [aerase, hp, alookup, hp', h]
      · simpa [aerase, hp, alookup, hp'] using ih

theorem aerase_aerase {α : Type} (k : String) (l : List (String × α)) :
    aerase k (aerase k l) = aerase k l := by
  simp [aerase, List.filter_filter]

theorem alookup_filter_key {α : Type} (k : String) (p : String → Bool)
    (l : List (String × α)) :
    alookup k (l.filter (fun q => p q.1)) =
      if p k then alookup k l else none := by
  induction l with
  | nil => simp [alookup]
  | cons q rest ih =>
    by_cases hq : q.1 = k
    · subst hq
      by_cases hp : p q.1
      · simp [List.filter, hp, alookup, ih]
      · simp [List.filter, hp, alookup, ih]
    · by_cases hp : p q.1
      · simp [List.filter, hp, alookup, hq, ih]
      · simp [List.filter, hp, alookup, hq, ih]

/-! ### Lemmas about the stale-generation scan -/

theorem scanOther_all_expired (current key : String) (now : Nat)
    (l : List (String × Segment))
    (h : ∀ gen seg, (gen, seg) ∈ l → ∀ e, alookup key seg = some e →
      e.expiry < now) :
    InMemoryCache.scanOther current key now l = ("", false, true, none) := by
  induction l with
  | nil => rfl
  | cons p rest ih =>
    obtain ⟨gen, seg⟩ := p
    have hrest : ∀ g s, (g, s) ∈ rest → ∀ e, alookup key s = some e →
        e.expiry < now :=
      fun g s hm e he => h g s (List.mem_cons_of_mem _ hm) e he
    by_cases hg : gen = current
    · simpa [InMemoryCache.scanOther, hg] using ih hrest
    · cases hk : alookup key seg with
      | none => simpa [InMemoryCache.scanOther, hg, hk] using ih hrest
      | some e =>
        have he : e.expiry < now := h gen seg (List.mem_cons_self _ _) e hk
        simp [InMemoryCache.scanOther, hg, hk, he]

/-- A concrete cache state used to instantiate hypotheses of the theorems:
two generations, current `g1`, key `k` present (expired at time 10) in
both, key `j` only in the current generation. -/
def cacheW : InMemoryCache :=
  ⟨"pages", "g1", "host0",
   [("g1", [("k", ⟨5, "a"⟩), ("j", ⟨6, "b"⟩)]), ("g0", [("k", ⟨5, "c"⟩)])],
   3, false⟩

/-- C2: if every entry stored under a key — in whichever segment — has an
expiry strictly before `now`, then `Get` at `now` returns
`("", false, true, nil)`: an expired entry is never returned as found,
whether or not it has been physically removed. -/
theorem Get_expired_not_found (c : InMemoryCache) (key : String) (now : Nat)
    (h : ∀ gen seg, (gen, seg) ∈ c.segments → ∀ e, alookup key seg = some e →
      e.expiry < now) :
    c.Get now key = ("", false, true, none) := by
  unfold InMemoryCache.Get
  cases hs : alookup c.currentChecksum c.segments with
  | none => exact scanOther_all_expired _ _ _ _ h
  | some seg =>
    cases hk : alookup key seg with
    | none =>
      simpa [hk] using scanOther_all_expired c.currentChecksum key now c.segments h
    | some e =>
      have he : e.expiry < now := h _ _ (alookup_mem hs) e hk
      simp [hk, he]

/-- Witness for C2 at a concrete state: both copies of key `k` in `cacheW`
expire at 5, so `Get` at time 10 reports not-found. -/
theorem Get_expired_not_found_witness :
    InMemoryCache.Get cacheW 10 "k" = ("", false, true, none) :=
  Get_expired_not_found cacheW "k" 10 (by
    intro gen seg hm e he
    simp [cacheW] at hm
    rcases hm with ⟨hg, hs⟩ | ⟨hg, hs⟩ <;> subst hs <;>
      simp [alookup] at he <;> simp [← he])

/-- C1: `Set(k, v)` followed immediately by `Get(k)` (same clock reading)
returns `(v, true, true, nil)` when the cache's TTL is positive. -/
theorem Set_Get_roundtrip (c : InMemoryCache) (k v : String) (now : Nat)
    (h : 0 < c.ttl) :
    ((c.Set now k v).1).Get now k = (v, true, true, none) := by
  have hexp : ¬ (now + c.ttl < now) := by omega
  simp [InMemoryCache.Set, InMemoryCache.Get, alookup_aset_self, hexp]

/-- Witness for C1: set-then-get on `cacheW` (TTL 3) at time 100. -/
theorem Set_Get_roundtrip_witness :
    0 < cacheW.ttl ∧
    ((cacheW.Set 100 "x" "v").1).Get 100 "x" = ("v", true, true, none) :=
  ⟨by decide, Set_Get_roundtrip cacheW "x" "v" 100 (by decide)⟩

/-- C9: `Delete(k)` returns `nil`, removes `k` from every segment, leaves
every other key in every segment unchanged, and is idempotent (a second
delete of the same key, also of an absent key, changes nothing). -/
theorem Delete_spec (c : InMemoryCache) (key : String) :
    (c.Delete key).2 = none ∧
    (∀ gen seg, alookup gen ((c.Delete key).1).segments = some seg →
      alookup key seg = none) ∧
    (∀ gen k', k' ≠ key →
      (alookup gen ((c.Delete key).1).segments).bind (alookup k') =
        (alookup gen c.segments).bind (alookup k')) ∧
    ((c.Delete key).1).Delete key = c.Delete key := by
  refine ⟨rfl, ?_, ?_, ?_⟩
  · intro gen seg hs
    rw [show ((c.Delete key).1).segments
          = c.segments.map (fun p => (p.1, aerase key p.2)) from rfl,
        alookup_map_value] at hs
    cases h0 : alookup gen c.segments with
    | none => rw [h0] at hs; simp at hs
    | some seg0 =>
      rw [h0] at hs
      simp at hs
      rw [← hs]
      exact alookup_aerase_self key seg0
  · intro gen k' hk
    rw [show ((c.Delete key).1).segments
          = c.segments.map (fun p => (p.1, aerase key p.2)) from rfl,
        alookup_map_value]
    cases h0 : alookup gen c.segments with
    | none => simp
    | some seg0 => simp [alookup_aerase_ne key k' seg0 hk]
  · unfold InMemoryCache.Delete
    simp only [List.map_map, Prod.mk.injEq, and_true]
    congr 1
    apply List.map_congr_left
    intro p _
    simp [Function.comp, aerase_aerase]

/-- Witness for C9 at the concrete state `cacheW`: key `k` is gone from the
current generation's table, key `j` is untouched. -/
theorem Delete_spec_witness :
    alookup "k" (aerase "k" [("k", (⟨5, "a"⟩ : memoryCacheEntry)), ("j", ⟨6, "b"⟩)]) = none ∧
    (alookup "g1" ((cacheW.Delete "k").1).segments).bind (alookup "j") =
      (alookup "g1" cacheW.segments).bind (alookup "j") :=
  ⟨(Delete_spec cacheW "k").2.1 "g1" _ (by simp [cacheW, InMemoryCache.Delete, alookup]),
   (Delete_spec cacheW "k").2.2.1 "g1" "j" (by decide)⟩

/-! ### Lemmas about generation pruning -/

theorem scanOther_all_current (current key : String) (now : Nat)
    (l : List (String × Segment)) (h : ∀ p ∈ l, p.1 = current) :
    InMemoryCache.scanOther current key now l = ("", false, true, none) := by
  induction l with
  | nil => rfl
  | cons p rest ih =>
    have hp : p.1 = current := h p (List.mem_cons_self _ _)
    obtain ⟨g, s⟩ := p
    simp at hp
    simp [InMemoryCache.scanOther, hp]
    exact ih (fun q hq => h q (List.mem_cons_of_mem _ hq))

theorem cycleCache_currentChecksum (new old : String) (force : Bool)
    (c : InMemoryCache) : (cycleCache new old force c).currentChecksum = new :=
  rfl

theorem cycleCache_lookup_other (new old g : String) (c : InMemoryCache)
    (hn : g ≠ new) (ho : g ≠ old) :
    alookup g (cycleCache new old false c).segments = none := by
  simp only [cycleCache]
  rw [alookup_filter_key]
  simp [keepGen, hn, ho]

theorem cycleCache_lookup_forced_other (new old g : String) (c : InMemoryCache)
    (hn : g ≠ new) :
    alookup g (cycleCache new old true c).segments = none := by
  simp only [cycleCache]
  rw [alookup_filter_key]
  simp [keepGen, hn]

theorem cycleCache_lookup_new_isSome (new old : String) (force : Bool)
    (c : InMemoryCache) :
    (alookup new (cycleCache new old force c).segments).isSome := by
  simp only [cycleCache]
  rw [alookup_filter_key]
  have hk : keepGen new old force new = true := by
    cases force <;> simp [keepGen]
  rw [hk]
  cases h : alookup new c.segments with
  | none => simp [alookup_aset_self]
  | some seg => simp [h]

theorem cycleCache_lookup_old (new old : String) (c : InMemoryCache)
    (hno : old ≠ new) :
    alookup old (cycleCache new old false c).segments = alookup old c.segments := by
  simp only [cycleCache]
  rw [alookup_filter_key]
  have hk : keepGen new old false old = true := by simp [keepGen]
  rw [hk]
  cases h : alookup new c.segments with
  | none =>
    simp [alookup_aset_ne new old ([] : Segment) c.segments hno]
  | some seg => simp

theorem Cycle_caches_lookup (m : InMemoryCacheManager) (G : String)
    (force : Bool) (cls : String) :
    alookup cls ((m.Cycle G force).1).caches =
      (alookup cls m.caches).map
        (fun c => if c.uncycled && !force then c
                  else cycleCache G m.currentChecksum force c) := by
  show alookup cls (m.caches.map _) = _
  rw [← alookup_map_value]
  congr 1
  apply List.map_congr_left
  intro p _
  by_cases h : p.2.uncycled && !force
  · simp [h]
  · simp [h]

/-- C5: after `Cycle(G, force)` returns, the manager's own current
generation is `G`, the call reports no error, and every managed cache that
is not skipped (every non-`uncycled` cache, or every cache when forced)
has `currentChecksum = G` and a (possibly empty) segment present for `G`. -/
theorem Cycle_installs_generation (m : InMemoryCacheManager) (G : String)
    (force : Bool) :
    ((m.Cycle G force).1).currentChecksum = G ∧
    (m.Cycle G force).2 = none ∧
    ∀ cls c, alookup cls ((m.Cycle G force).1).caches = some c →
      (c.uncycled = false ∨ force = true) →
      c.currentChecksum = G ∧ (alookup G c.segments).isSome := by
  refine ⟨rfl, rfl, ?_⟩
  intro cls c hc hskip
  rw [Cycle_caches_lookup] at hc
  cases h0 : alookup cls m.caches with
  | none => rw [h0] at hc; simp at hc
  | some c0 =>
    rw [h0] at hc
    simp at hc
    by_cases hu : c0.uncycled = true ∧ force = false
    · rw [if_pos hu] at hc
      subst hc
      rcases hskip with h1 | h1
      · simp [h1] at hu
      · simp [h1] at hu
    · rw [if_neg hu] at hc
      subst hc
      exact ⟨rfl, cycleCache_lookup_new_isSome G m.currentChecksum force c0⟩

/-- A concrete one-cache manager used to instantiate the theorems. -/
def managerW : InMemoryCacheManager :=
  ⟨[("pages", cacheW)], "g1", "host0", 3⟩

/-- Witness for C5: cycling `managerW` to `g2` installs `g2` on the manager
and on its (non-uncycled) cache, with a segment present for `g2`. -/
theorem Cycle_installs_generation_witness :
    ((managerW.Cycle "g2" false).1).currentChecksum = "g2" ∧
    (cycleCache "g2" "g1" false cacheW).currentChecksum = "g2" ∧
    (alookup "g2" (cycleCache "g2" "g1" false cacheW).segments).isSome :=
  ⟨(Cycle_installs_generation managerW "g2" false).1,
   (Cycle_installs_generation managerW "g2" false).2.2 "pages"
     (cycleCache "g2" "g1" false cacheW) (by decide) (Or.inl (by decide))⟩

/-- C7: a cache with `uncycled = true` is returned entirely unchanged by a
non-forced `Cycle`, and adopts the new generation under a forced `Cycle`. -/
theorem Uncycled_cache_behavior (m : InMemoryCacheManager) (cls G : String)
    (c : InMemoryCache) (h : alookup cls m.caches = some c)
    (hu : c.uncycled = true) :
    alookup cls ((m.Cycle G false).1).caches = some c ∧
    alookup cls ((m.Cycle G true).1).caches =
      some (cycleCache G m.currentChecksum true c) ∧
    (cycleCache G m.currentChecksum true c).currentChecksum = G := by
  refine ⟨?_, ?_, rfl⟩
  · rw [Cycle_caches_lookup, h]
    simp [hu]
  · rw [Cycle_caches_lookup, h]
    simp [hu]

/-- A concrete uncycled cache and its manager. -/
def cacheU : InMemoryCache :=
  ⟨"nav", "g1", "host0", [("g1", [("k", ⟨5, "a"⟩)])], 3, true⟩

def managerU : InMemoryCacheManager :=
  ⟨[("nav", cacheU)], "g1", "host0", 3⟩

/-- Witness for C7: a non-forced cycle of `managerU` leaves `cacheU`
untouched; a forced one installs the new generation. -/
theorem Uncycled_cache_behavior_witness :
    alookup "nav" ((managerU.Cycle "g2" false).1).caches = some cacheU ∧
    alookup "nav" ((managerU.Cycle "g2" true).1).caches =
      some (cycleCache "g2" "g1" true cacheU) ∧
    (cycleCache "g2" "g1" true cacheU).currentChecksum = "g2" :=
  Uncycled_cache_behavior managerU "nav" "g2" cacheU (by decide) (by decide)

/-! ### Scenario helpers: a fresh cache written under G then cycled -/

theorem set_on_fresh_eq (cls hostv G k v : String) (ttl t : Nat) :
    ((⟨cls, G, hostv, [], ttl, false⟩ : InMemoryCache).Set t k v).1
      = ⟨cls, G, hostv, [(G, [(k, ⟨t + ttl, v⟩)])], ttl, false⟩ :=
  rfl

theorem set_then_cycle_eq (cls hostv G G2 k v : String) (ttl t : Nat)
    (hGG2 : G ≠ G2) :
    cycleCache G2 G false
        ((⟨cls, G, hostv, [], ttl, false⟩ : InMemoryCache).Set t k v).1
      = ⟨cls, G2, hostv, [(G, [(k, ⟨t + ttl, v⟩)]), (G2, [])], ttl, false⟩ := by
  rw [set_on_fresh_eq]
  simp [cycleCache, alookup, aset, keepGen, hGG2]

theorem stale_hit_after_cycle (cls hostv G G2 k v : String) (ttl t now : Nat)
    (hGG2 : G ≠ G2) (hexp : ¬ (t + ttl < now)) :
    (cycleCache G2 G false
        ((⟨cls, G, hostv, [], ttl, false⟩ : InMemoryCache).Set t k v).1).Get now k
      = (v, true, false, none) := by
  rw [set_then_cycle_eq cls hostv G G2 k v ttl t hGG2]
  simp [InMemoryCache.Get, alookup, InMemoryCache.scanOther, hGG2, hexp]

/-- C3: `Set(k, v)` while the cache's generation is `G`, then a non-forced
`Cycle` of the manager to `G2 ≠ G`: a `Get(k)` performed before the entry
expires returns `(v, true, false, nil)` — served, but flagged stale. -/
theorem Set_Cycle_Get_stale (cls hostv G G2 k v : String) (mttl ttl t now : Nat)
    (hne : G2 ≠ G) (hfresh : now ≤ t + ttl) :
    alookup cls
        ((InMemoryCacheManager.Cycle
            ⟨[(cls, ((⟨cls, G, hostv, [], ttl, false⟩ : InMemoryCache).Set t k v).1)],
              G, hostv, mttl⟩ G2 false).1).caches =
      some (cycleCache G2 G false
        ((⟨cls, G, hostv, [], ttl, false⟩ : InMemoryCache).Set t k v).1) ∧
    (cycleCache G2 G false
        ((⟨cls, G, hostv, [], ttl, false⟩ : InMemoryCache).Set t k v).1).Get now k
      = (v, true, false, none) := by
  have hGG2 : G ≠ G2 := Ne.symm hne
  have hexp : ¬ (t + ttl < now) := by omega
  constructor
  · rw [Cycle_caches_lookup]
    simp [alookup, InMemoryCache.Set]
  · exact stale_hit_after_cycle cls hostv G G2 k v ttl t now hGG2 hexp

/-- Witness for C3 at concrete inputs (TTL 3, write at 0, read at 2). -/
theorem Set_Cycle_Get_stale_witness :
    (cycleCache "g2" "g1" false
        ((⟨"pages", "g1", "host0", [], 3, false⟩ : InMemoryCache).Set 0 "k" "v").1).Get 2 "k"
      = ("v", true, false, none) :=
  (Set_Cycle_Get_stale "pages" "host0" "g1" "g2" "k" "v" 3 3 0 2
    (by decide) (by decide)).2

theorem double_cycle_eq (cls hostv G G2 G3 k v : String) (ttl t : Nat)
    (hGG2 : G ≠ G2) (hGG3 : G ≠ G3) (hG2G3 : G2 ≠ G3) :
    cycleCache G3 G2 false (cycleCache G2 G false
        ((⟨cls, G, hostv, [], ttl, false⟩ : InMemoryCache).Set t k v).1)
      = ⟨cls, G3, hostv, [(G2, []), (G3, [])], ttl, false⟩ := by
  rw [set_then_cycle_eq cls hostv G G2 k v ttl t hGG2]
  simp [cycleCache, alookup, aset, keepGen, hGG2, hGG3, hG2G3]

/-- C4: a non-forced cycle to `new` with previous generation `old` keeps
exactly the segments for `new` and `old` and deletes every other segment;
in particular, after `Set(k, v)` under `G`, `Cycle(G2, false)` and
`Cycle(G3, false)` with `G, G2, G3` pairwise distinct, `Get(k)` reports
not-found because G's segment has been pruned. -/
theorem Cycle_retains_exactly_two (c : InMemoryCache) (new old : String)
    (hno : old ≠ new)
    (cls hostv G G2 G3 k v : String) (mttl ttl t now : Nat)
    (h2 : G2 ≠ G) (h3 : G3 ≠ G) (h23 : G3 ≠ G2) :
    (∀ g, g ≠ new → g ≠ old →
      alookup g (cycleCache new old false c).segments = none) ∧
    alookup old (cycleCache new old false c).segments = alookup old c.segments ∧
    (alookup new (cycleCache new old false c).segments).isSome ∧
    alookup cls
        ((InMemoryCacheManager.Cycle
            ((InMemoryCacheManager.Cycle
                ⟨[(cls, ((⟨cls, G, hostv, [], ttl, false⟩ : InMemoryCache).Set t k v).1)],
                  G, hostv, mttl⟩ G2 false).1) G3 false).1).caches =
      some (cycleCache G3 G2 false (cycleCache G2 G false
        ((⟨cls, G, hostv, [], ttl, false⟩ : InMemoryCache).Set t k v).1)) ∧
    (cycleCache G3 G2 false (cycleCache G2 G false
        ((⟨cls, G, hostv, [], ttl, false⟩ : InMemoryCache).Set t k v).1)).Get now k
      = ("", false, true, none) := by
  have hGG2 : G ≠ G2 := Ne.symm h2
  have hGG3 : G ≠ G3 := Ne.symm h3
  have hG2G3 : G2 ≠ G3 := Ne.symm h23
  refine ⟨?_, ?_, ?_, ?_, ?_⟩
  · intro g hgn hgo
    exact cycleCache_lookup_other new old g c hgn hgo
  · exact cycleCache_lookup_old new old c hno
  · exact cycleCache_lookup_new_isSome new old false c
  · rw [Cycle_caches_lookup, Cycle_caches_lookup]
    simp [alookup, InMemoryCache.Set, InMemoryCacheManager.Cycle, cycleCache]
  · rw [double_cycle_eq cls hostv G G2 G3 k v ttl t hGG2 hGG3 hG2G3]
    simp [InMemoryCache.Get, alookup, InMemoryCache.scanOther, hG2G3]

/-- Witness for C4: concrete pruning and the concrete three-generation
scenario. -/
theorem Cycle_retains_exactly_two_witness :
    alookup "g7" (cycleCache "g2" "g1" false cacheW).segments = none ∧
    (cycleCache "g3" "g2" false (cycleCache "g2" "g1" false
        ((⟨"pages", "g1", "host0", [], 3, false⟩ : InMemoryCache).Set 0 "k" "v").1)).Get 2 "k"
      = ("", false, true, none) :=
  ⟨(Cycle_retains_exactly_two cacheW "g2" "g1" (by decide) "pages" "host0"
      "g1" "g2" "g3" "k" "v" 3 3 0 2 (by decide) (by decide) (by decide)).1
      "g7" (by decide) (by decide),
   (Cycle_retains_exactly_two cacheW "g2" "g1" (by decide) "pages" "host0"
      "g1" "g2" "g3" "k" "v" 3 3 0 2 (by decide) (by decide) (by decide)).2.2.2.2⟩

/-- C6: a forced cycle leaves only the installed generation's segment —
all others, including the immediately preceding generation's, are deleted —
so a key previously served as a stale hit is not-found immediately after
the forced cycle. -/
theorem Cycle_forced_wipes (c : InMemoryCache) (new old : String)
    (cls hostv G G2 k v : String) (ttl t now : Nat)
    (hne : G2 ≠ G) (hfresh : now ≤ t + ttl) :
    (∀ g, g ≠ new → alookup g (cycleCache new old true c).segments = none) ∧
    (alookup new (cycleCache new old true c).segments).isSome ∧
    (cycleCache G2 G false
        ((⟨cls, G, hostv, [], ttl, false⟩ : InMemoryCache).Set t k v).1).Get now k
      = (v, true, false, none) ∧
    (cycleCache G2 G2 true (cycleCache G2 G false
        ((⟨cls, G, hostv, [], ttl, false⟩ : InMemoryCache).Set t k v).1)).Get now k
      = ("", false, true, none) := by
  have hGG2 : G ≠ G2 := Ne.symm hne
  have hexp : ¬ (t + ttl < now) := by omega
  refine ⟨?_, ?_, ?_, ?_⟩
  · intro g hg
    exact cycleCache_lookup_forced_other new old g c hg
  · exact cycleCache_lookup_new_isSome new old true c
  · exact stale_hit_after_cycle cls hostv G G2 k v ttl t now hGG2 hexp
  · rw [set_then_cycle_eq cls hostv G G2 k v ttl t hGG2]
    simp [cycleCache, alookup, aset, keepGen, InMemoryCache.Get,
      InMemoryCache.scanOther, hGG2]

/-- Witness for C6: concrete forced wipe after a concrete stale hit. -/
theorem Cycle_forced_wipes_witness :
    alookup "g1" (cycleCache "g2" "g1" true cacheW).segments = none ∧
    (cycleCache "g2" "g2" true (cycleCache "g2" "g1" false
        ((⟨"pages", "g1", "host0", [], 3, false⟩ : InMemoryCache).Set 0 "k" "v").1)).Get 2 "k"
      = ("", false, true, none) :=
  ⟨(Cycle_forced_wipes cacheW "g2" "g1" "pages" "host0" "g1" "g2" "k" "v"
      3 0 2 (by decide) (by decide)).1 "g1" (by decide),
   (Cycle_forced_wipes cacheW "g2" "g1" "pages" "host0" "g1" "g2" "k" "v"
      3 0 2 (by decide) (by decide)).2.2.2⟩

/-- C10 (implicit): a non-forced `Cycle` to the generation that is already
the manager's current one remembers that same generation as "previous", so
every non-uncycled cache is pruned to that single generation's segment —
exactly what a forced cycle produces — and a key absent from the current
generation's segment (for example one previously served as a stale hit)
is then not-found. -/
theorem Cycle_same_generation_prunes (m : InMemoryCacheManager) (G : String)
    (hG : m.currentChecksum = G) (cls : String) (c : InMemoryCache)
    (h : alookup cls m.caches = some c) (hu : c.uncycled = false) :
    alookup cls ((m.Cycle G false).1).caches = some (cycleCache G G false c) ∧
    cycleCache G G false c = cycleCache G G true c ∧
    (∀ g, g ≠ G → alookup g (cycleCache G G false c).segments = none) ∧
    (alookup G (cycleCache G G false c).segments).isSome ∧
    (∀ k now, (∀ seg, alookup G c.segments = some seg → alookup k seg = none) →
      (cycleCache G G false c).Get now k = ("", false, true, none)) := by
  refine ⟨?_, ?_, ?_, ?_, ?_⟩
  · rw [Cycle_caches_lookup, h, hG]
    simp [hu]
  · have hfun : (fun (p : String × Segment) => keepGen G G false p.1)
        = (fun (p : String × Segment) => keepGen G G true p.1) := by
      funext p
      simp [keepGen]
    simp only [cycleCache, hfun]
  · intro g hg
    exact cycleCache_lookup_other G G g c hg hg
  · exact cycleCache_lookup_new_isSome G G false c
  · intro k now hk
    have hall : ∀ p ∈ (cycleCache G G false c).segments, p.1 = G := by
      intro p hp
      simp only [cycleCache] at hp
      have hkeep := List.of_mem_filter hp
      simpa [keepGen] using hkeep
    unfold InMemoryCache.Get
    cases hseg : alookup (cycleCache G G false c).currentChecksum
        (cycleCache G G false c).segments with
    | none => exact scanOther_all_current _ _ _ _ hall
    | some seg =>
      have hseg' : alookup G (cycleCache G G false c).segments = some seg := hseg
      have hkseg : alookup k seg = none := by
        simp only [cycleCache] at hseg'
        rw [alookup_filter_key] at hseg'
        have hkg : keepGen G G false G = true := by simp [keepGen]
        rw [hkg] at hseg'
        simp only [if_true] at hseg'
        cases h0 : alookup G c.segments with
        | none =>
          simp only [h0] at hseg'
          rw [alookup_aset_self] at hseg'
          injection hseg' with hempty
          rw [← hempty]
          rfl
        | some seg0 =>
          simp only [h0] at hseg'
          injection hseg' with hseg0
          rw [← hseg0]
          exact hk seg0 h0
      simpa [hkseg] using
        scanOther_all_current (cycleCache G G false c).currentChecksum k now
          (cycleCache G G false c).segments hall

/-- Witness for C10: cycling `managerW` (current `g1`) to `g1` non-forced
prunes `g0`'s segment from `cacheW`, and a key outside the `g1` segment is
not-found afterwards. -/
theorem Cycle_same_generation_prunes_witness :
    alookup "g0" (cycleCache "g1" "g1" false cacheW).segments = none ∧
    (cycleCache "g1" "g1" false cacheW).Get 0 "z" = ("", false, true, none) :=
  ⟨(Cycle_same_generation_prunes managerW "g1" rfl "pages" cacheW
      (by decide) rfl).2.2.1 "g0" (by decide),
   (Cycle_same_generation_prunes managerW "g1" rfl "pages" cacheW
      (by decide) rfl).2.2.2.2 "z" 0 (by
        intro seg hs
        simp [cacheW, alookup] at hs
        subst hs
        decide)⟩

/-! ### C8: the `GetCache` registration race

`GetCache` (memory.go 190–234) consists, for a fixed class, of two
separate critical sections: the read-locked lookup (lines 191–193) and —
only when that lookup missed — the write-locked creation that builds a new
`&InMemoryCache{...}` and stores it in the registry (lines 217–233),
without re-checking the registry after taking the write lock.  The model
below keeps, for one class, the registry slot and an allocation counter:
distinct counter values stand for distinct Go pointer allocations. -/

/-- Registry state for one class: `registered` is `m.caches[class]` (an
allocation id standing for the cache pointer), `nextId` the next fresh
allocation. -/
structure RegistryState where
  registered : Option Nat
  nextId : Nat
  deriving Repr, DecidableEq

/-- The read-locked section of `GetCache`: look the class up. -/
def getCacheCheck (s : RegistryState) : Option Nat := s.registered

/-- The write-locked not-found path of `GetCache`: allocate a fresh cache
and register it, overwriting whatever the slot holds. -/
def getCacheCreate (s : RegistryState) : RegistryState × Nat :=
  (⟨some s.nextId, s.nextId + 1⟩, s.nextId)

/-- The remainder of one `GetCache` call after its check section: return
the cache found, otherwise run the creation section. -/
def getCacheFinish (checked : Option Nat) (s : RegistryState) :
    RegistryState × Nat :=
  match checked with
  | some id => (s, id)
  | none => getCacheCreate s

/-- C8 (refuted on the code): in the interleaving where two first-time
callers of `GetCache` for the same class both run the read-locked lookup
(both miss) before either takes the write lock, both run the creation
section: the two callers receive distinct cache instances, and the first
caller's instance is no longer the one registered.  Sequentially ordered
calls (second check after first create) do return the same instance. -/
theorem getCache_race_two_instances :
    (getCacheFinish (getCacheCheck ⟨none, 0⟩) ⟨none, 0⟩).2 ≠
      (getCacheFinish (getCacheCheck ⟨none, 0⟩)
        (getCacheFinish (getCacheCheck ⟨none, 0⟩) ⟨none, 0⟩).1).2 ∧
    ((getCacheFinish (getCacheCheck ⟨none, 0⟩)
        (getCacheFinish (getCacheCheck ⟨none, 0⟩) ⟨none, 0⟩).1).1).registered ≠
      some (getCacheFinish (getCacheCheck ⟨none, 0⟩) ⟨none, 0⟩).2 ∧
    (getCacheFinish
        (getCacheCheck (getCacheFinish (getCacheCheck ⟨none, 0⟩) ⟨none, 0⟩).1)
        (getCacheFinish (getCacheCheck ⟨none, 0⟩) ⟨none, 0⟩).1).2 =
      (getCacheFinish (getCacheCheck ⟨none, 0⟩) ⟨none, 0⟩).2 := by
  decide
